import Mathlib

/-!
Shallow embedding of the TinyRemoteRF firmware core (wagiminator/ATtiny13-TinyRemoteRF).

Transmitter side (src/software/.../main, `sendByte` / `sendCode` and the pulse
macros `startPulse` / `bit0Pulse` / `bit1Pulse` / `stopPause`): the emitted
signal is modelled as a list of events, each event being either one
burst-plus-space pulse (the on-time and off-time arguments of the two
`_delay_us` calls of the corresponding macro) or a plain off-pause
(`stopPause`).

Receiver side (src/software/receiver/RF_Receiver.ino, `loop`): the input is
modelled as the list of HIGH-pulse durations successively returned by
`pulseIn(DATA_PIN, HIGH, ...)`.  `pulseIn` returns 0 when it times out; when
the model's input list is exhausted the receiver code would only ever see
timeouts, so the start-bit wait loop (which treats a 0 duration as
out-of-band and keeps polling forever) is reported as `stillWaiting`, and the
bit-reading loop (which breaks out on a 0 duration) behaves exactly as on an
explicit 0 element.  The `delayMicroseconds(2 * RF_ERR)` guard after
start-sync consumes time inside the space following the last start burst
(space 6*RF_ERR-5 > 2*RF_ERR) and therefore skips no burst; it has no
counterpart in the duration-list model.

All machine integers are modelled as Nat.  The receiver's `data` accumulator
is a uint32_t; starting from 1 it is left-shifted at most 24 times, so it
stays below 2^25 < 2^32 and never wraps (see `readBits_bound` below), hence
`2 * data + bit` is a faithful translation of `data <<= 1; data |= bit`.
-/

/-- RF_ERR, the base error width in microseconds (same in both sources). -/
def RF_ERR : Nat := 150

/-- RF_PRE, the number of preamble zero bits sent by the transmitter. -/
def RF_PRE : Nat := 32

/-- RF_START, the number of start bits (same in both sources). -/
def RF_START : Nat := 4

/-- RF_REP, the number of transmission repeats. -/
def RF_REP : Nat := 3

/-- ADDR, the fixed 8-bit device address 0x55. -/
def ADDR : Nat := 0x55

/-- Bitwise complement of a uint8_t value: for x < 256 this is 255 - x. -/
def compl8 (x : Nat) : Nat := 255 - x % 256

/-- Bitwise complement of a uint32_t value. -/
def compl32 (x : Nat) : Nat := 2 ^ 32 - 1 - x % 2 ^ 32

/-- One element of the transmitter's output signal: either a burst of `on`
microseconds followed by a space of `off` microseconds (the two `_delay_us`
arguments of a pulse macro), or the line simply held off for `d`
microseconds (`stopPause`). -/
inductive RFEvent where
  | pulse (burst space : Nat)
  | pause (d : Nat)
  deriving DecidableEq, Repr

/-- startPulse macro: RF on for 6*RF_ERR, off for 6*RF_ERR-5. -/
def startPulse : RFEvent := .pulse (6 * RF_ERR) (6 * RF_ERR - 5)

/-- bit0Pulse macro: RF on for 2*RF_ERR, off for 2*RF_ERR-5. -/
def bit0Pulse : RFEvent := .pulse (2 * RF_ERR) (2 * RF_ERR - 5)

/-- bit1Pulse macro: RF on for 4*RF_ERR, off for 4*RF_ERR-5. -/
def bit1Pulse : RFEvent := .pulse (4 * RF_ERR) (4 * RF_ERR - 5)

/-- stopPause macro: line held off for an extra 6*RF_ERR. -/
def stopPause : RFEvent := .pause (6 * RF_ERR)

/-- The loop body of `sendByte`: `i` remaining iterations, `value` the current
uint8_t shift register; each iteration emits bit1Pulse when `value & 0x80` is
set, else bit0Pulse, then shifts `value` left by one (wrapping mod 256). -/
def sendByteAux : Nat → Nat → List RFEvent
  | 0, _ => []
  | i + 1, value =>
      (if value &&& 0x80 ≠ 0 then bit1Pulse else bit0Pulse) ::
        sendByteAux i (value * 2 % 256)

/-- sendByte: send a single byte via RF, 8 bits, MSB first. -/
def sendByte (value : Nat) : List RFEvent := sendByteAux 8 (value % 256)

/-- sendCode: complete telegram.  RF_PRE preamble zero bits, then RF_REP
repetitions of (RF_START start pulses, address byte, command byte, inverse
command byte, stop pause). -/
def sendCode (cmd : Nat) : List RFEvent :=
  List.replicate RF_PRE bit0Pulse ++
    List.flatten (List.replicate RF_REP
      (List.replicate RF_START startPulse ++
        sendByte ADDR ++ sendByte cmd ++ sendByte (compl8 cmd) ++ [stopPause]))

/-- The sequence of HIGH durations an ideal receiver measures from an event
list: the burst (on) time of every pulse; pauses keep the line off. -/
def burstDurations (evs : List RFEvent) : List Nat :=
  evs.filterMap fun ev =>
    match ev with
    | .pulse b _ => some b
    | .pause _ => none

/-- Helper for `burstGaps`: `acc` is the off-time accumulated since the end
of the previous burst; each pulse closes the current gap and opens a new one
with its own space; pauses extend the current gap.  Off-time after the last
burst is dropped (there is no next burst). -/
def burstGapsAux (acc : Nat) : List RFEvent → List Nat
  | [] => []
  | .pulse _ sp :: rest => acc :: burstGapsAux sp rest
  | .pause d :: rest => burstGapsAux (acc + d) rest

/-- The list of off-times between consecutive bursts of an event list:
entry j is the time the line is off between burst j and burst j+1. -/
def burstGaps (evs : List RFEvent) : List Nat := (burstGapsAux 0 evs).drop 1

/-- Result of one receiver attempt (one pass of `loop`): a decoded frame with
its validity flag (the Valid/Invalid serial report), the Incomplete report,
or `stillWaiting`, meaning the input ended while the start-bit wait loop was
still polling (the C code would block there reading further pulses; it
produces no report in that state). -/
inductive RxResult where
  | frame (address command inverse : Nat) (valid : Bool)
  | incomplete
  | stillWaiting
  deriving DecidableEq, Repr

/-- The receiver's start-bit wait loop:
`uint8_t counter = RF_START; do { duration = pulseIn(...); if (duration <
5*RF_ERR || duration > 7*RF_ERR) counter = 5; } while(--counter);`
An out-of-band duration sets the counter to the failed sentinel 5, which the
decrement immediately turns back into 4 = RF_START (the loop keeps running);
an in-band duration lets the decrement proceed, and the loop exits once the
counter reaches 0.  Returns the unconsumed rest on exit, `none` when the
input is exhausted while the loop is still running. -/
def awaitStart (counter : Nat) : List Nat → Option (List Nat)
  | [] => none
  | d :: rest =>
      if d < 5 * RF_ERR ∨ 7 * RF_ERR < d then awaitStart 4 rest
      else if counter - 1 = 0 then some rest
      else awaitStart (counter - 1) rest

/-- The receiver's bit-reading loop:
`for(i=24; i; i--) { duration = pulseIn(...); if (duration < RF_ERR ||
duration > 5*RF_ERR) break; data <<= 1; if (duration > 3*RF_ERR) data |= 1; }`
A pulseIn timeout yields duration 0, which hits the `< RF_ERR` break; an
exhausted input list is the same thing. -/
def readBits : Nat → Nat → List Nat → Nat
  | 0, data, _ => data
  | _ + 1, data, [] => data
  | i + 1, data, d :: rest =>
      if d < RF_ERR ∨ 5 * RF_ERR < d then data
      else readBits i (2 * data + (if 3 * RF_ERR < d then 1 else 0)) rest

/-- The receiver's reporting section: `if (data & 0x01000000)` report the
three bytes and the Valid/Invalid comparison `((data >> 8) & 0xFF) ==
(~data & 0xFF)`, else report Incomplete. -/
def checkReading (data : Nat) : RxResult :=
  if data &&& 0x01000000 ≠ 0 then
    .frame ((data >>> 16) &&& 0xFF) ((data >>> 8) &&& 0xFF) (data &&& 0xFF)
      (decide ((data >>> 8) &&& 0xFF = compl32 data &&& 0xFF))
  else .incomplete

/-- One full receiver attempt (one pass of `loop`) over a duration stream. -/
def receiveFrame (ds : List Nat) : RxResult :=
  match awaitStart RF_START ds with
  | none => .stillWaiting
  | some rest => checkReading (readBits 24 1 rest)

/-- The burst durations of one byte sent MSB-first with the documented
widths: `bitsBursts k v` lists, for bits k-1 down to 0 of `v`, a 4*RF_ERR
burst for a set bit and a 2*RF_ERR burst for a clear bit. -/
def bitsBursts : Nat → Nat → List Nat
  | 0, _ => []
  | k + 1, v => (if v.testBit k then 4 * RF_ERR else 2 * RF_ERR) :: bitsBursts k v

/-- Burst durations of one byte, MSB first, per the documented widths. -/
def byteBursts (v : Nat) : List Nat := bitsBursts 8 v

/-- An ideal (zero-jitter) duration stream carrying an arbitrary three-byte
payload with the documented widths: preamble zero-bit bursts, start bursts,
then the three bytes MSB-first. -/
def payloadStream (a c i : Nat) : List Nat :=
  List.replicate RF_PRE (2 * RF_ERR) ++ List.replicate RF_START (6 * RF_ERR) ++
    byteBursts a ++ byteBursts c ++ byteBursts i

/-- Specification-level byte emission: 8 pulses, most significant bit first,
bit1Pulse for a set bit, bit0Pulse for a clear bit. -/
def specByte (v : Nat) : List RFEvent :=
  [7, 6, 5, 4, 3, 2, 1, 0].map fun k => if v.testBit k then bit1Pulse else bit0Pulse

/-! ### Helper lemmas about the receiver -/

/-- The uint8_t complement is always a byte value. -/
theorem compl8_lt (x : Nat) : compl8 x < 256 := by
  unfold compl8; omega

/-- An out-of-band duration in the start-bit wait loop sets the counter to
the failed sentinel 5, which the decrement turns back into 4: the loop goes
on exactly as if it had just started. -/
theorem awaitStart_reset (c d : Nat) (rest : List Nat)
    (h : d < 5 * RF_ERR ∨ 7 * RF_ERR < d) :
    awaitStart c (d :: rest) = awaitStart 4 rest := by
  simp only [awaitStart]
  rw [if_pos h]

/-- Preamble zero-bit bursts are out of the start band and are skipped. -/
theorem awaitStart_preamble (n : Nat) (rest : List Nat) :
    awaitStart 4 (List.replicate n (2 * RF_ERR) ++ rest) = awaitStart 4 rest := by
  induction n with
  | zero => rfl
  | succ k ih =>
      rw [List.replicate_succ, List.cons_append,
        awaitStart_reset _ _ _ (Or.inl (by norm_num [RF_ERR]))]
      exact ih

/-- Four consecutive start-band bursts of width 6*RF_ERR make the wait loop
exit, leaving the rest of the stream unconsumed. -/
theorem awaitStart_startRun (rest : List Nat) :
    awaitStart 4 (6 * RF_ERR :: 6 * RF_ERR :: 6 * RF_ERR :: 6 * RF_ERR :: rest) =
      some rest := by
  norm_num [awaitStart, RF_ERR]

/-- A stream whose durations are all outside the start band never makes the
wait loop exit: the whole input is consumed and the loop is still running. -/
theorem awaitStart_allOut (ds : List Nat)
    (h : ∀ d ∈ ds, d < 5 * RF_ERR ∨ 7 * RF_ERR < d) :
    awaitStart 4 ds = none := by
  induction ds with
  | nil => rfl
  | cons d t ih =>
      rw [awaitStart_reset _ _ _ (h d (List.mem_cons_self d t))]
      exact ih fun x hx => h x (List.mem_cons_of_mem d hx)

/-- Reading the bursts of the `k` low bits of `v` (MSB first, documented
widths) accumulates those bits into the shift register. -/
theorem readBits_bitsBursts (k : Nat) : ∀ (n v data : Nat) (rest : List Nat),
    readBits (n + k) data (bitsBursts k v ++ rest) =
      readBits n (data * 2 ^ k + v % 2 ^ k) rest := by
  induction k with
  | zero =>
      intro n v data rest
      simp [bitsBursts, Nat.mod_one]
  | succ k ih =>
      intro n v data rest
      have hnk : n + (k + 1) = (n + k) + 1 := rfl
      have hmod : v % 2 ^ (k + 1) = v % 2 ^ k + 2 ^ k * (v / 2 ^ k % 2) := by
        rw [pow_succ, Nat.mod_mul]
      have hpow : 2 ^ (k + 1) = 2 ^ k * 2 := pow_succ 2 k
      rw [bitsBursts, hnk]
      cases hb : v.testBit k with
      | false =>
          have hdm : v / 2 ^ k % 2 = 0 := by
            have := Nat.testBit_to_div_mod (i := k) (x := v)
            rw [hb] at this
            have h2 : v / 2 ^ k % 2 < 2 := Nat.mod_lt _ (by norm_num)
            simp at this
            omega
          rw [if_neg]
          · show readBits ((n + k) + 1) data (2 * RF_ERR :: (bitsBursts k v ++ rest)) = _
            rw [readBits, if_neg (by norm_num [RF_ERR]), if_neg (by norm_num [RF_ERR])]
            rw [ih]
            congr 1
            rw [hmod, hdm, hpow]
            ring
          · simp [hb]
      | true =>
          have hdm : v / 2 ^ k % 2 = 1 := by
            have := Nat.testBit_to_div_mod (i := k) (x := v)
            rw [hb] at this
            simpa using this.symm
          rw [if_pos rfl]
          show readBits ((n + k) + 1) data (4 * RF_ERR :: (bitsBursts k v ++ rest)) = _
          rw [readBits, if_neg (by norm_num [RF_ERR]), if_pos (by norm_num [RF_ERR])]
          rw [ih]
          congr 1
          rw [hmod, hdm, hpow]
          ring

/-- Reading one full byte (MSB first, documented widths) multiplies the
shift register by 256 and adds the byte. -/
theorem readBits_byte (v n data : Nat) (rest : List Nat) (hv : v < 256) :
    readBits (n + 8) data (byteBursts v ++ rest) = readBits n (data * 256 + v) rest := by
  have h := readBits_bitsBursts 8 n v data rest
  rw [byteBursts, h, Nat.mod_eq_of_lt (by norm_num; omega)]
  norm_num

/-- The shift register never overflows: starting from `data` and reading at
most `n` further bits keeps it below `(data + 1) * 2 ^ n`.  In particular the
uint32_t accumulator of the receiver (start value 1, at most 24 bits) stays
below 2 ^ 25 and the C left shift never wraps. -/
theorem readBits_bound : ∀ (n data : Nat) (ds : List Nat),
    readBits n data ds < (data + 1) * 2 ^ n := by
  intro n
  induction n with
  | zero =>
      intro data ds
      simp [readBits]
  | succ k ih =>
      intro data ds
      have hone : data < (data + 1) * 2 ^ (k + 1) := by
        have h2 : 1 ≤ 2 ^ (k + 1) := Nat.one_le_two_pow
        calc data < data + 1 := Nat.lt_succ_self data
          _ = (data + 1) * 1 := by ring
          _ ≤ (data + 1) * 2 ^ (k + 1) := Nat.mul_le_mul_left _ h2
      match ds with
      | [] => exact hone
      | d :: rest =>
          rw [readBits]
          by_cases hab : d < RF_ERR ∨ 5 * RF_ERR < d
          · rw [if_pos hab]; exact hone
          · rw [if_neg hab]
            have hb : (if 3 * RF_ERR < d then 1 else 0) ≤ 1 := by split <;> omega
            have := ih (2 * data + (if 3 * RF_ERR < d then 1 else 0)) rest
            calc readBits k (2 * data + (if 3 * RF_ERR < d then 1 else 0)) rest
                < (2 * data + (if 3 * RF_ERR < d then 1 else 0) + 1) * 2 ^ k := this
              _ ≤ (2 * data + 2) * 2 ^ k := Nat.mul_le_mul_right _ (by omega)
              _ = (data + 1) * 2 ^ (k + 1) := by rw [pow_succ]; ring

/-- Consuming a list of in-band bit durations: the read loop accepts each
one and the shift register stays below `(data + 1) * 2 ^ length`. -/
theorem readBits_goodPrefix : ∀ (bs : List Nat),
    (∀ b ∈ bs, RF_ERR ≤ b ∧ b ≤ 5 * RF_ERR) →
    ∀ (n data : Nat) (rest : List Nat), ∃ dataFin,
      readBits (n + bs.length) data (bs ++ rest) = readBits n dataFin rest ∧
        dataFin < (data + 1) * 2 ^ bs.length := by
  intro bs
  induction bs with
  | nil =>
      intro _ n data rest
      exact ⟨data, by simp, by simp⟩
  | cons b bs ih =>
      intro hgood n data rest
      have hb := hgood b (List.mem_cons_self b bs)
      have hrest : ∀ x ∈ bs, RF_ERR ≤ x ∧ x ≤ 5 * RF_ERR :=
        fun x hx => hgood x (List.mem_cons_of_mem b hx)
      obtain ⟨df, heq, hlt⟩ := ih hrest n (2 * data + (if 3 * RF_ERR < b then 1 else 0)) rest
      refine ⟨df, ?_, ?_⟩
      · have hlen : n + (b :: bs).length = (n + bs.length) + 1 := by
          simp [List.length_cons]; omega
        rw [hlen, List.cons_append]
        rw [readBits, if_neg (by omega)]
        exact heq
      · have hstep : (2 * data + (if 3 * RF_ERR < b then 1 else 0) + 1) * 2 ^ bs.length ≤
            (data + 1) * 2 ^ (b :: bs).length := by
          have h1 : 2 * data + (if 3 * RF_ERR < b then 1 else 0) + 1 ≤ 2 * data + 2 := by
            split <;> omega
          calc (2 * data + (if 3 * RF_ERR < b then 1 else 0) + 1) * 2 ^ bs.length
              ≤ (2 * data + 2) * 2 ^ bs.length := Nat.mul_le_mul_right _ h1
            _ = (data + 1) * 2 ^ (bs.length + 1) := by rw [pow_succ]; ring
            _ = (data + 1) * 2 ^ (b :: bs).length := by rw [List.length_cons]
        omega

/-- A shift register still below the sentinel bit reports Incomplete. -/
theorem checkReading_lt (data : Nat) (h : data < 2 ^ 24) :
    checkReading data = RxResult.incomplete := by
  have h24 : (0x01000000 : Nat) = 2 ^ 24 := by norm_num
  have h1 : data &&& 0x01000000 = 0 := by
    rw [h24, Nat.and_two_pow, Nat.testBit_lt_two_pow h]
    simp
  simp [checkReading, h1]

/-- Masking with 0xFF is reduction mod 256. -/
theorem and_ff_eq_mod (x : Nat) : x &&& 0xFF = x % 256 := by
  have h8 : (0xFF : Nat) = 2 ^ 8 - 1 := by norm_num
  rw [h8, Nat.and_pow_two_sub_one_eq_mod]

/-- The reporting section applied to a completed shift register
1-a-c-i (sentinel bit, then the three bytes): it reports the three bytes and
compares the command byte with the complement of the inverse byte. -/
theorem checkReading_payload (a c i : Nat) (ha : a < 256) (hc : c < 256)
    (hi : i < 256) :
    checkReading (16777216 + (a * 65536 + c * 256 + i)) =
      RxResult.frame a c i (decide (c = 255 - i)) := by
  have h24 : (0x01000000 : Nat) = 2 ^ 24 := by norm_num
  have hsent : (16777216 + (a * 65536 + c * 256 + i)) &&& 0x01000000 ≠ 0 := by
    have hq : (2 ^ 24 + (a * 65536 + c * 256 + i)) / 2 ^ 24 % 2 = 1 := by
      have h224 : (2 : Nat) ^ 24 = 16777216 := by norm_num
      rw [h224]
      omega
    rw [h24, Nat.and_two_pow, Nat.testBit_to_div_mod, hq]
    norm_num
  have e16 : ((16777216 + (a * 65536 + c * 256 + i)) >>> 16) &&& 0xFF = a := by
    rw [Nat.shiftRight_eq_div_pow, and_ff_eq_mod]
    have : (2 : Nat) ^ 16 = 65536 := by norm_num
    rw [this]
    omega
  have e8 : ((16777216 + (a * 65536 + c * 256 + i)) >>> 8) &&& 0xFF = c := by
    rw [Nat.shiftRight_eq_div_pow, and_ff_eq_mod]
    have : (2 : Nat) ^ 8 = 256 := by norm_num
    rw [this]
    omega
  have e0 : (16777216 + (a * 65536 + c * 256 + i)) &&& 0xFF = i := by
    rw [and_ff_eq_mod]
    omega
  have ecompl : compl32 (16777216 + (a * 65536 + c * 256 + i)) &&& 0xFF = 255 - i := by
    rw [and_ff_eq_mod]
    unfold compl32
    have : (2 : Nat) ^ 32 = 4294967296 := by norm_num
    rw [this]
    omega
  unfold checkReading
  rw [if_pos hsent, e16, e8, e0, ecompl]

/-- Decoding the 24 payload bursts of three bytes (MSB first, documented
widths): the receiver reports the three bytes with the validity comparison,
whatever follows the payload in the stream. -/
theorem decode_payload (a c i : Nat) (ha : a < 256) (hc : c < 256) (hi : i < 256)
    (rest : List Nat) :
    checkReading (readBits 24 1 (byteBursts a ++ (byteBursts c ++ (byteBursts i ++ rest)))) =
      RxResult.frame a c i (decide (c = 255 - i)) := by
  have h1 : readBits 24 1 (byteBursts a ++ (byteBursts c ++ (byteBursts i ++ rest))) =
      readBits 16 (256 + a) (byteBursts c ++ (byteBursts i ++ rest)) := by
    have := readBits_byte a 16 1 (byteBursts c ++ (byteBursts i ++ rest)) ha
    norm_num at this
    exact this
  have h2 : readBits 16 (256 + a) (byteBursts c ++ (byteBursts i ++ rest)) =
      readBits 8 ((256 + a) * 256 + c) (byteBursts i ++ rest) := by
    have := readBits_byte c 8 (256 + a) (byteBursts i ++ rest) hc
    norm_num at this
    exact this
  have h3 : readBits 8 ((256 + a) * 256 + c) (byteBursts i ++ rest) =
      readBits 0 (((256 + a) * 256 + c) * 256 + i) rest := by
    have := readBits_byte i 0 ((256 + a) * 256 + c) rest hi
    norm_num at this
    exact this
  rw [h1, h2, h3]
  have h4 : readBits 0 (((256 + a) * 256 + c) * 256 + i) rest =
      16777216 + (a * 65536 + c * 256 + i) := by
    rw [readBits]
    ring
  rw [h4]
  exact checkReading_payload a c i ha hc hi

/-- Full receiver pass over an ideal telegram-shaped stream: preamble
zero-bit bursts, four start bursts, then three bytes; anything after the 24
payload bursts is ignored. -/
theorem receiveFrame_payload (a c i : Nat) (ha : a < 256) (hc : c < 256)
    (hi : i < 256) (pre : Nat) (rest : List Nat) :
    receiveFrame (List.replicate pre (2 * RF_ERR) ++
        (List.replicate RF_START (6 * RF_ERR) ++
          (byteBursts a ++ (byteBursts c ++ (byteBursts i ++ rest))))) =
      RxResult.frame a c i (decide (c = 255 - i)) := by
  unfold receiveFrame
  have hrep : List.replicate 4 (6 * RF_ERR) ++
      (byteBursts a ++ (byteBursts c ++ (byteBursts i ++ rest))) =
      6 * RF_ERR :: 6 * RF_ERR :: 6 * RF_ERR :: 6 * RF_ERR ::
        (byteBursts a ++ (byteBursts c ++ (byteBursts i ++ rest))) := rfl
  rw [show (RF_START : Nat) = 4 from rfl, awaitStart_preamble, hrep, awaitStart_startRun]
  exact decode_payload a c i ha hc hi rest

/-- After start-sync, fewer than 24 accepted bit durations followed by an
abort-band duration leave the sentinel bit unreached: the pass reports
Incomplete. -/
theorem decode_truncated (bs : List Nat) (hlen : bs.length < 24)
    (hgood : ∀ b ∈ bs, RF_ERR ≤ b ∧ b ≤ 5 * RF_ERR) (d : Nat)
    (habort : d < RF_ERR ∨ 5 * RF_ERR < d) (tail : List Nat) :
    checkReading (readBits 24 1 (bs ++ d :: tail)) = RxResult.incomplete := by
  obtain ⟨df, heq, hlt⟩ := readBits_goodPrefix bs hgood (24 - bs.length) 1 (d :: tail)
  have h24 : 24 - bs.length + bs.length = 24 := by omega
  rw [h24] at heq
  rw [heq]
  obtain ⟨m, hm⟩ : ∃ m, 24 - bs.length = m + 1 := ⟨23 - bs.length, by omega⟩
  rw [hm, readBits, if_pos habort]
  apply checkReading_lt
  have h2 : (2 : Nat) ^ (bs.length + 1) ≤ 2 ^ 24 :=
    Nat.pow_le_pow_right (by norm_num) (by omega)
  calc df < (1 + 1) * 2 ^ bs.length := hlt
    _ = 2 ^ (bs.length + 1) := by rw [pow_succ]; ring
    _ ≤ 2 ^ 24 := h2

/-! ### Helper lemmas about the transmitter -/

set_option maxRecDepth 10000 in
/-- The shift-register loop of `sendByte` emits exactly the testBit view of
the byte, most significant bit first. -/
theorem sendByte_eq_specByte : ∀ v, v < 256 → sendByte v = specByte v := by decide

/-- Every event of a telegram is one of the four macro shapes. -/
theorem telegram_event_shapes (c : Nat) (ev : RFEvent) (hev : ev ∈ sendCode c) :
    ev = bit0Pulse ∨ ev = bit1Pulse ∨ ev = startPulse ∨ ev = stopPause := by
  have hbyte : ∀ i v, ev ∈ sendByteAux i v → ev = bit0Pulse ∨ ev = bit1Pulse := by
    intro i
    induction i with
    | zero => intro v h; simp [sendByteAux] at h
    | succ k ih =>
        intro v h
        rw [sendByteAux] at h
        rcases List.mem_cons.mp h with h | h
        · subst h
          split
          · right; rfl
          · left; rfl
        · exact ih _ h
  unfold sendCode at hev
  rcases List.mem_append.mp hev with h | h
  · left
    exact (List.eq_of_mem_replicate h)
  · rcases List.mem_flatten.mp h with ⟨l, hl, hevl⟩
    have hle := List.eq_of_mem_replicate hl
    subst hle
    rcases List.mem_append.mp hevl with h' | h'
    rotate_left
    · right; right; right
      simpa using h'
    rcases List.mem_append.mp h' with h'' | h''
    rotate_left
    · rcases hbyte _ _ h'' with h3 | h3
      · left; exact h3
      · right; left; exact h3
    rcases List.mem_append.mp h'' with h3 | h3
    rotate_left
    · rcases hbyte _ _ h3 with h4 | h4
      · left; exact h4
      · right; left; exact h4
    rcases List.mem_append.mp h3 with h4 | h4
    · right; right; left
      exact List.eq_of_mem_replicate h4
    · rcases hbyte _ _ h4 with h5 | h5
      · left; exact h5
      · right; left; exact h5

/-- Characterization of the start-bit wait loop for counter values 1..4: it
eventually exits iff either the next `c` durations are all inside the start
band, or a run of 4 consecutive in-band durations starts at some later
position (a later run always needs the full 4, because the duration just
before it reset the counter). -/
theorem awaitStart_isSome_iff_aux :
    ∀ (ds : List Nat) (c : Nat), 1 ≤ c → c ≤ 4 →
      ((awaitStart c ds).isSome = true ↔
        (c ≤ ds.length ∧ ∀ j, j < c →
            5 * RF_ERR ≤ ds.getD j 0 ∧ ds.getD j 0 ≤ 7 * RF_ERR) ∨
        (∃ m, 1 ≤ m ∧ m + 4 ≤ ds.length ∧ ∀ j, j < 4 →
            5 * RF_ERR ≤ ds.getD (m + j) 0 ∧ ds.getD (m + j) 0 ≤ 7 * RF_ERR)) := by
  intro ds
  induction ds with
  | nil =>
      intro c h1 h4
      rw [show awaitStart c [] = none from rfl]
      simp only [Option.isSome_none, Bool.false_eq_true, false_iff]
      rintro (⟨hle, _⟩ | ⟨m, hm, hle, _⟩)
      · simp only [List.length_nil] at hle
        omega
      · simp only [List.length_nil] at hle
        omega
  | cons d t ih =>
      intro c h1 h4
      by_cases hd : d < 5 * RF_ERR ∨ 7 * RF_ERR < d
      · rw [awaitStart_reset _ _ _ hd, ih 4 (by norm_num) (by norm_num)]
        constructor
        · rintro (⟨hlen, hrun⟩ | ⟨m, hm1, hlen, hwin⟩)
          · right
            refine ⟨1, by omega, by simp only [List.length_cons]; omega, ?_⟩
            intro j hj
            have hr := hrun j hj
            rw [Nat.add_comm 1 j, List.getD_cons_succ]
            exact hr
          · right
            refine ⟨m + 1, by omega, by simp only [List.length_cons]; omega, ?_⟩
            intro j hj
            have hw := hwin j hj
            rw [show m + 1 + j = (m + j) + 1 by omega, List.getD_cons_succ]
            exact hw
        · rintro (⟨hlen, hrun⟩ | ⟨m, hm1, hlen, hwin⟩)
          · exfalso
            have hr := hrun 0 (by omega)
            rw [List.getD_cons_zero] at hr
            rcases hd with hd | hd <;> omega
          · obtain ⟨m0, rfl⟩ : ∃ m0, m = 1 + m0 := Nat.exists_eq_add_of_le hm1
            simp only [List.length_cons] at hlen
            have hwin' : ∀ j, j < 4 →
                5 * RF_ERR ≤ t.getD (m0 + j) 0 ∧ t.getD (m0 + j) 0 ≤ 7 * RF_ERR := by
              intro j hj
              have hw := hwin j hj
              rw [show 1 + m0 + j = (m0 + j) + 1 by omega, List.getD_cons_succ] at hw
              exact hw
            cases Nat.eq_zero_or_pos m0 with
            | inl h0 =>
                subst h0
                left
                refine ⟨by omega, ?_⟩
                intro j hj
                simpa using hwin' j (by omega)
            | inr hpos =>
                right
                exact ⟨m0, hpos, by omega, hwin'⟩
      · rw [show awaitStart c (d :: t) =
            if c - 1 = 0 then some t else awaitStart (c - 1) t from by
          simp only [awaitStart]; rw [if_neg hd]]
        push_neg at hd
        rcases Nat.eq_or_lt_of_le h1 with hc1 | hc2
        · rw [← hc1, if_pos rfl]
          refine iff_of_true rfl ?_
          left
          refine ⟨by simp only [List.length_cons]; omega, ?_⟩
          intro j hj
          have hj0 : j = 0 := by omega
          subst hj0
          rw [List.getD_cons_zero]
          exact ⟨hd.1, hd.2⟩
        · rw [if_neg (by omega), ih (c - 1) (by omega) (by omega)]
          constructor
          · rintro (⟨hlen, hrun⟩ | ⟨m, hm1, hlen, hwin⟩)
            · left
              refine ⟨by simp only [List.length_cons]; omega, ?_⟩
              intro j hj
              cases j with
              | zero =>
                  rw [List.getD_cons_zero]
                  exact ⟨hd.1, hd.2⟩
              | succ j0 =>
                  rw [List.getD_cons_succ]
                  exact hrun j0 (by omega)
            · right
              refine ⟨m + 1, by omega, by simp only [List.length_cons]; omega, ?_⟩
              intro j hj
              have hw := hwin j hj
              rw [show m + 1 + j = (m + j) + 1 by omega, List.getD_cons_succ]
              exact hw
          · rintro (⟨hlen, hrun⟩ | ⟨m, hm1, hlen, hwin⟩)
            · left
              simp only [List.length_cons] at hlen
              refine ⟨by omega, ?_⟩
              intro j hj
              have hr := hrun (j + 1) (by omega)
              rw [List.getD_cons_succ] at hr
              exact hr
            · obtain ⟨m0, rfl⟩ : ∃ m0, m = 1 + m0 := Nat.exists_eq_add_of_le hm1
              simp only [List.length_cons] at hlen
              have hwin' : ∀ j, j < 4 →
                  5 * RF_ERR ≤ t.getD (m0 + j) 0 ∧ t.getD (m0 + j) 0 ≤ 7 * RF_ERR := by
                intro j hj
                have hw := hwin j hj
                rw [show 1 + m0 + j = (m0 + j) + 1 by omega, List.getD_cons_succ] at hw
                exact hw
              cases Nat.eq_zero_or_pos m0 with
              | inl h0 =>
                  subst h0
                  left
                  refine ⟨by omega, ?_⟩
                  intro j hj
                  simpa using hwin' j (by omega)
              | inr hpos =>
                  right
                  exact ⟨m0, hpos, by omega, hwin'⟩

/-! ### Claims -/

set_option maxRecDepth 10000 in
/-- C1: Round-trip: for every command byte c in [0,255], encoding c with
`sendCode` (address 0x55, command c, bitwise complement of c, documented
pulse widths) into its burst-duration sequence and feeding that exact
sequence to the receiver yields a frame with address 0x55, command c,
inverse ~c, and validity flag true. -/
theorem C1_roundTrip : ∀ c, c < 256 →
    receiveFrame (burstDurations (sendCode c)) =
      RxResult.frame ADDR c (compl8 c) true := by
  decide

/-- Witness for C1 at command 0x5A. -/
theorem C1_roundTrip_witness :
    receiveFrame (burstDurations (sendCode 0x5A)) =
      RxResult.frame ADDR 0x5A (compl8 0x5A) true :=
  C1_roundTrip 0x5A (by decide)

/-- C2: decoding a full 24-bit payload (a, c, i) yields the frame (a, c, i)
with validity flag true exactly when i is the bitwise complement (mod 256)
of c; in particular a third byte that is not the complement of the command
is reported with valid = false, never accepted silently, and the decoder
(a total function) never crashes. -/
theorem C2_inverse_check (a c i : Nat) (ha : a < 256) (hc : c < 256)
    (hi : i < 256) :
    receiveFrame (payloadStream a c i) =
      RxResult.frame a c i (decide (i = compl8 c)) := by
  have h := receiveFrame_payload a c i ha hc hi RF_PRE []
  have hs : payloadStream a c i =
      List.replicate RF_PRE (2 * RF_ERR) ++
        (List.replicate RF_START (6 * RF_ERR) ++
          (byteBursts a ++ (byteBursts c ++ (byteBursts i ++ [])))) := by
    simp [payloadStream, List.append_assoc]
  rw [hs, h]
  refine congrArg (RxResult.frame a c i) ?_
  rw [decide_eq_decide]
  unfold compl8
  rw [Nat.mod_eq_of_lt hc]
  omega

/-- Witness for C2 at payload (0x55, 3, 7): 7 is not the complement of 3,
and the frame is reported invalid. -/
theorem C2_inverse_check_witness :
    (7 : Nat) ≠ compl8 3 ∧
      receiveFrame (payloadStream 0x55 3 7) = RxResult.frame 0x55 3 7 false := by
  have h := C2_inverse_check 0x55 3 7 (by decide) (by decide) (by decide)
  exact ⟨by decide, h.trans (by decide)⟩

/-- C3: one call of the transmitter emits exactly 32 zero-bit pulses, then
3 repetitions of (4 start pulses, the address byte 0x55, the command byte,
the complement byte, each byte as 8 pulses most-significant-bit first with
the bit0/bit1 pulse shapes, then the line held off for the stop pause). -/
theorem C3_telegram_structure (c : Nat) (hc : c < 256) :
    sendCode c =
      List.replicate 32 bit0Pulse ++
        List.flatten (List.replicate 3
          (List.replicate 4 startPulse ++
            specByte 0x55 ++ specByte c ++ specByte (compl8 c) ++ [stopPause])) := by
  unfold sendCode
  rw [sendByte_eq_specByte ADDR (by decide), sendByte_eq_specByte c hc,
    sendByte_eq_specByte (compl8 c) (compl8_lt c)]
  rfl

/-- Witness for C3 at command 0xA7. -/
theorem C3_telegram_structure_witness :
    sendCode 0xA7 =
      List.replicate 32 bit0Pulse ++
        List.flatten (List.replicate 3
          (List.replicate 4 startPulse ++
            specByte 0x55 ++ specByte 0xA7 ++ specByte (compl8 0xA7) ++ [stopPause])) :=
  C3_telegram_structure 0xA7 (by decide)

/-- C4: classification of a bit duration d after start-sync and 23 accepted
zero bits: d < RF_ERR or d > 5*RF_ERR aborts the frame (Incomplete), and an
accepted duration is bit 1 exactly when d > 3*RF_ERR.  In particular
d = 3*RF_ERR gives bit 0, d = 3*RF_ERR + 1 gives bit 1, d = RF_ERR gives
bit 0 (no abort) and d = 5*RF_ERR gives bit 1 (no abort). -/
theorem C4_bit_classification (d : Nat) :
    receiveFrame (List.replicate RF_START (6 * RF_ERR) ++
        (List.replicate 23 (2 * RF_ERR) ++ [d])) =
      if d < RF_ERR ∨ 5 * RF_ERR < d then RxResult.incomplete
      else RxResult.frame 0 0 (if 3 * RF_ERR < d then 1 else 0) false := by
  unfold receiveFrame
  rw [show (RF_START : Nat) = 4 from rfl]
  rw [show (List.replicate 4 (6 * RF_ERR) ++ (List.replicate 23 (2 * RF_ERR) ++ [d])) =
      6 * RF_ERR :: 6 * RF_ERR :: 6 * RF_ERR :: 6 * RF_ERR ::
        (List.replicate 23 (2 * RF_ERR) ++ [d]) from rfl]
  rw [awaitStart_startRun]
  show checkReading (readBits 24 1 (List.replicate 23 (2 * RF_ERR) ++ [d])) = _
  rw [show List.replicate 23 (2 * RF_ERR) = bitsBursts 23 0 from by decide]
  have h1 : readBits 24 1 (bitsBursts 23 0 ++ [d]) = readBits 1 (2 ^ 23) [d] := by
    have h := readBits_bitsBursts 23 1 0 1 [d]
    norm_num at h
    exact h
  rw [h1]
  have hstep : readBits 1 (2 ^ 23) [d] =
      if d < RF_ERR ∨ 5 * RF_ERR < d then 2 ^ 23
      else 2 * 2 ^ 23 + (if 3 * RF_ERR < d then 1 else 0) := rfl
  rw [hstep]
  by_cases hab : d < RF_ERR ∨ 5 * RF_ERR < d
  · rw [if_pos hab, if_pos hab]
    exact checkReading_lt _ (by norm_num)
  · rw [if_neg hab, if_neg hab]
    by_cases hbit : 3 * RF_ERR < d
    · rw [if_pos hbit]
      decide
    · rw [if_neg hbit]
      decide

/-- C5: the receiver leaves the start-bit wait state exactly when 4
consecutive durations all lie in [5*RF_ERR, 7*RF_ERR]; an out-of-band
duration resets the counter (failed sentinel 5, decremented back to 4); a
stream whose durations are all out of band never leaves the wait state. -/
theorem C5_start_sync :
    (∀ c d rest, (d < 5 * RF_ERR ∨ 7 * RF_ERR < d) →
        awaitStart c (d :: rest) = awaitStart 4 rest) ∧
    (∀ ds : List Nat, ((awaitStart RF_START ds).isSome = true ↔
        ∃ m, m + 4 ≤ ds.length ∧ ∀ j, j < 4 →
          5 * RF_ERR ≤ ds.getD (m + j) 0 ∧ ds.getD (m + j) 0 ≤ 7 * RF_ERR)) ∧
    (∀ ds : List Nat, (∀ d ∈ ds, d < 5 * RF_ERR ∨ 7 * RF_ERR < d) →
        awaitStart RF_START ds = none) := by
  refine ⟨fun c d rest h => awaitStart_reset c d rest h, ?_, ?_⟩
  · intro ds
    rw [show (RF_START : Nat) = 4 from rfl,
      awaitStart_isSome_iff_aux ds 4 (by norm_num) (le_refl 4)]
    constructor
    · rintro (⟨hlen, hrun⟩ | ⟨m, hm1, hlen, hwin⟩)
      · exact ⟨0, by omega, fun j hj => by simpa using hrun j hj⟩
      · exact ⟨m, hlen, hwin⟩
    · rintro ⟨m, hlen, hwin⟩
      cases Nat.eq_zero_or_pos m with
      | inl h0 =>
          subst h0
          left
          exact ⟨by omega, fun j hj => by simpa using hwin j hj⟩
      | inr hpos =>
          right
          exact ⟨m, hpos, hlen, hwin⟩
  · intro ds h
    exact awaitStart_allOut ds h

/-- Witness for C5: an out-of-band duration resets; a stream with a run of
4 in-band durations after noise syncs; an all-out-of-band stream never
syncs. -/
theorem C5_start_sync_witness :
    awaitStart 2 (100 :: [900]) = awaitStart 4 [900] ∧
      (awaitStart RF_START [300, 900, 900, 900, 900]).isSome = true ∧
      awaitStart RF_START [100, 2000, 0] = none := by
  refine ⟨C5_start_sync.1 2 100 [900] (by decide), ?_,
    C5_start_sync.2.2 [100, 2000, 0] (by decide)⟩
  exact (C5_start_sync.2.1 [300, 900, 900, 900, 900]).mpr ⟨1, by decide, by decide⟩

/-- C6: a stream that achieves start-sync but whose remaining durations
give fewer than 24 accepted bits before an abort-band duration is reported
Incomplete; the partial bits are not exposed in any form. -/
theorem C6_truncation (ds bs tail : List Nat) (d : Nat)
    (hsync : awaitStart RF_START ds = some (bs ++ d :: tail))
    (hlen : bs.length < 24)
    (hgood : ∀ b ∈ bs, RF_ERR ≤ b ∧ b ≤ 5 * RF_ERR)
    (habort : d < RF_ERR ∨ 5 * RF_ERR < d) :
    receiveFrame ds = RxResult.incomplete := by
  unfold receiveFrame
  rw [hsync]
  exact decode_truncated bs hlen hgood d habort tail

/-- Witness for C6: start-sync, then exactly 10 accepted bits, then a
timeout (duration 0) — the spec's truncation example. -/
theorem C6_truncation_witness :
    receiveFrame ([900, 900, 900, 900] ++ List.replicate 10 300 ++ [0]) =
      RxResult.incomplete :=
  C6_truncation _ (List.replicate 10 300) [] 0 (by decide) (by decide)
    (by decide) (by decide)

/-- C7 counterexample: after 100 consecutive timeout readings (pulseIn
result 0, never in the start band) the receiver has not terminated with any
report: it is still inside the unbounded start-bit wait loop.  The code has
no NoStart outcome: its only reports are the frame prints and Incomplete,
both unreachable without start-sync. -/
theorem C7_noStart_counterexample :
    receiveFrame (List.replicate 100 0) = RxResult.stillWaiting := by
  decide

/-- C7 amended: on every input stream on which start-sync is never achieved
(all durations outside [5*RF_ERR, 7*RF_ERR]) the receiver never leaves the
start-bit wait loop and reports nothing: each pulseIn call is bounded by the
14*RF_ERR timeout, but the number of loop iterations is unbounded and no
NoStart error is ever reported. -/
theorem C7_noStart_amended (ds : List Nat)
    (h : ∀ d ∈ ds, d < 5 * RF_ERR ∨ 7 * RF_ERR < d) :
    receiveFrame ds = RxResult.stillWaiting := by
  unfold receiveFrame
  rw [show (RF_START : Nat) = 4 from rfl, awaitStart_allOut ds h]

/-- Witness for the amended C7. -/
theorem C7_noStart_amended_witness :
    receiveFrame [0, 5000, 200] = RxResult.stillWaiting :=
  C7_noStart_amended [0, 5000, 200] (by decide)

set_option maxRecDepth 10000 in
/-- C8 counterexample: for command 1 (the code sent for KEY1) the off-time
between the last payload burst of repetition 1 (burst index 59: 32 preamble
+ 4 start + 24 payload bursts) and the first start burst of repetition 2 is
(2*RF_ERR - 5) + 6*RF_ERR = 1195 µs < 8*RF_ERR = 1200 µs: the inverse byte
0xFE ends in bit 0, whose space is compensated by 5 µs. -/
theorem C8_stopGap_counterexample :
    (burstGaps (sendCode 1)).getD 59 0 = 1195 ∧
      ¬ (8 * RF_ERR ≤ (burstGaps (sendCode 1)).getD 59 0) := by
  decide

set_option maxRecDepth 10000 in
/-- C8 amended: for every command byte, the line is held off for at least
8*RF_ERR - 5 microseconds of programmed delay between the final payload
burst of a repetition and the next repetition's first burst (gap indices 59
and 87 of the 115 inter-burst gaps); the missing 5 µs is the trailing-edge
compensation of the last bit's space. -/
theorem C8_stopGap_amended : ∀ c, c < 256 →
    (burstGaps (sendCode c)).length = 115 ∧
      8 * RF_ERR - 5 ≤ (burstGaps (sendCode c)).getD 59 0 ∧
      8 * RF_ERR - 5 ≤ (burstGaps (sendCode c)).getD 87 0 := by
  decide

/-- Witness for the amended C8 at command 2. -/
theorem C8_stopGap_amended_witness :
    (burstGaps (sendCode 2)).length = 115 ∧
      8 * RF_ERR - 5 ≤ (burstGaps (sendCode 2)).getD 59 0 ∧
      8 * RF_ERR - 5 ≤ (burstGaps (sendCode 2)).getD 87 0 :=
  C8_stopGap_amended 2 (by decide)

/-- C9: a pulseIn timeout during bit reading yields duration 0, which lies
in the abort band (< RF_ERR): the bit loop aborts immediately without
recording a bit, exactly as for any other too-short noise pulse, and an
attempt that had start-sync but fewer than 24 bits is reported
Incomplete. -/
theorem C9_timeout_abort :
    (∀ (i data : Nat) (rest : List Nat), readBits (i + 1) data (0 :: rest) = data) ∧
    (∀ (i data d : Nat) (rest : List Nat), d < RF_ERR →
        readBits (i + 1) data (d :: rest) = readBits (i + 1) data (0 :: rest)) ∧
    (∀ (bs rest : List Nat), bs.length < 24 →
        (∀ b ∈ bs, RF_ERR ≤ b ∧ b ≤ 5 * RF_ERR) →
        receiveFrame (List.replicate RF_START (6 * RF_ERR) ++ (bs ++ 0 :: rest)) =
          RxResult.incomplete) := by
  have hz : ∀ (i data : Nat) (rest : List Nat),
      readBits (i + 1) data (0 :: rest) = data := by
    intro i data rest
    rw [readBits, if_pos (by decide)]
  refine ⟨hz, ?_, ?_⟩
  · intro i data d rest hd
    rw [readBits, if_pos (Or.inl hd), hz]
  · intro bs rest hlen hgood
    unfold receiveFrame
    rw [show (RF_START : Nat) = 4 from rfl]
    rw [show (List.replicate 4 (6 * RF_ERR) ++ (bs ++ 0 :: rest)) =
        6 * RF_ERR :: 6 * RF_ERR :: 6 * RF_ERR :: 6 * RF_ERR :: (bs ++ 0 :: rest) from rfl]
    rw [awaitStart_startRun]
    exact decode_truncated bs hlen hgood 0 (by decide) rest

/-- Witness for C9: timeout as first bit keeps the register; a 120 µs noise
pulse is handled identically; sync then 10 bits then timeout is
Incomplete. -/
theorem C9_timeout_abort_witness :
    readBits 24 1 (0 :: List.replicate 23 300) = 1 ∧
      readBits 24 1 (120 :: List.replicate 23 300) =
        readBits 24 1 (0 :: List.replicate 23 300) ∧
      receiveFrame (List.replicate RF_START (6 * RF_ERR) ++
          (List.replicate 10 300 ++ 0 :: [])) = RxResult.incomplete := by
  refine ⟨?_, ?_, ?_⟩
  · exact C9_timeout_abort.1 23 1 (List.replicate 23 300)
  · exact C9_timeout_abort.2.1 23 1 120 (List.replicate 23 300) (by decide)
  · exact C9_timeout_abort.2.2 (List.replicate 10 300) [] (by decide) (by decide)

/-- C10: every pulse of every telegram — preamble and payload zero bits,
one bits, and start pulses alike — has its space exactly 5 µs shorter than
its burst, and the burst is one of the documented widths 2*RF_ERR,
4*RF_ERR, 6*RF_ERR. -/
theorem C10_pulse_compensation (c b sp : Nat)
    (h : RFEvent.pulse b sp ∈ sendCode c) :
    sp + 5 = b ∧ (b = 2 * RF_ERR ∨ b = 4 * RF_ERR ∨ b = 6 * RF_ERR) := by
  rcases telegram_event_shapes c _ h with h1 | h1 | h1 | h1
  · rw [show bit0Pulse = RFEvent.pulse (2 * RF_ERR) (2 * RF_ERR - 5) from rfl] at h1
    injection h1 with hb hs
    subst hb; subst hs
    exact ⟨by decide, Or.inl rfl⟩
  · rw [show bit1Pulse = RFEvent.pulse (4 * RF_ERR) (4 * RF_ERR - 5) from rfl] at h1
    injection h1 with hb hs
    subst hb; subst hs
    exact ⟨by decide, Or.inr (Or.inl rfl)⟩
  · rw [show startPulse = RFEvent.pulse (6 * RF_ERR) (6 * RF_ERR - 5) from rfl] at h1
    injection h1 with hb hs
    subst hb; subst hs
    exact ⟨by decide, Or.inr (Or.inr rfl)⟩
  · rw [show stopPause = RFEvent.pause (6 * RF_ERR) from rfl] at h1
    exact RFEvent.noConfusion h1

set_option maxRecDepth 10000 in
/-- Witness for C10: the bit-1 pulse of command 7's telegram. -/
theorem C10_pulse_compensation_witness :
    (4 * RF_ERR - 5) + 5 = 4 * RF_ERR ∧
      (4 * RF_ERR = 2 * RF_ERR ∨ 4 * RF_ERR = 4 * RF_ERR ∨ 4 * RF_ERR = 6 * RF_ERR) :=
  C10_pulse_compensation 7 (4 * RF_ERR) (4 * RF_ERR - 5) (by decide)
